import Mathlib

/-!
Verification of the worker/worker-group core of the `channels` repository.

The repository ships `channels/worker.py` (the `Worker`, `WorkerGroup`,
`StopWorkerGroupLoop` and `apply_channel_filters` implementation) outside the
source tree available here; only its test suite (`tests/test_worker.py`) and an
unrelated Celery task module are present.  The worker core is therefore
modelled from the specification (`spec.md`), faithful to its words, and the
claims are settled against that model.  Test-visible behaviour (the
`PatchedWorker` countdown termination property, the concrete filter examples)
is reflected where the tests pin it down.
-/

namespace Channels

/-- Does the character list `p` start the character list `n`? -/
def leadsList : List Char → List Char → Bool
  | [], _ => true
  | _ :: _, [] => false
  | a :: as, b :: bs => a == b && leadsList as bs

/-- Does the pattern end in the wildcard character `*`? -/
def trailingStar (p : List Char) : Bool :=
  match p.getLast? with
  | some c => c == '*'
  | none => false

/-- Modelled from the spec: glob matching used by the channel filter of the
missing `channels/worker.py`.  Per §4.1: exact string equality for patterns
without a wildcard; a pattern ending in a wildcard segment matches any name
sharing that prefix (the pattern minus the trailing `*`). -/
def matchPattern (pattern name : String) : Bool :=
  if trailingStar pattern.data then leadsList pattern.data.dropLast name.data
  else pattern.data == name.data

/-- Modelled from the spec: `Worker.apply_channel_filters` of the missing
`channels/worker.py` (§4.1).  Step 1: if `only` is non-empty, keep names
matching at least one `only` pattern.  Step 2: from the result of step 1
(or from `channels` unchanged when `only` is empty), drop any name matching
at least one `exclude` pattern.  Surviving names keep their original order. -/
def apply_channel_filters (channels only exclude : List String) : List String :=
  let kept :=
    if only.isEmpty then channels
    else channels.filter (fun c => only.any (fun p => matchPattern p c))
  kept.filter (fun c => !(exclude.any (fun p => matchPattern p c)))

/-- Outcome of one handler invocation (§6: a handler either completes
normally, signals retry-later (`ConsumeLater`), or signals a fatal error). -/
inductive Outcome
  | normal
  | retryLater
  | fatal
deriving DecidableEq, Repr

/-- Modelled from the spec: the environment a worker runs against — the
route table (§3) exposing the known channel names and `match` (abstracted to
whether a handler exists), and the handler behaviour as a function of the
how-many-th invocation this is (the tests count calls on a shared consumer). -/
structure Env where
  channels : List String
  hasRoute : String → Bool
  handler : Nat → Outcome

/-- Termination flag of a worker.  `flag` is the plain boolean `termed`
attribute of the missing `channels/worker.py`; `countdown` is the
`PatchedWorker` property of `tests/test_worker.py` (lines 20–31), which
reports not-terminated for a fixed number of checks and then terminated. -/
inductive TermMode
  | flag (b : Bool)
  | countdown (n : Nat)
deriving DecidableEq, Repr

/-- One termination check: returns the observed value and the updated mode
(`PatchedWorker.get_termed` decrements its remaining-iterations counter). -/
def checkTermed : TermMode → Bool × TermMode
  | .flag b => (b, .flag b)
  | .countdown 0 => (true, .countdown 0)
  | .countdown (n + 1) => (false, .countdown n)

/-- Position of a worker inside its consume loop (§4.2).  `checkTerm` is the
top of the loop (idle, about to re-check termination and block in
`receive_many`); `invoking c m` is a handler invocation in flight for message
`m` on channel `c`; `done` is a clean loop exit; `failed` is the loop
terminated by a fatal handler error. -/
inductive Phase
  | checkTerm
  | invoking (c : String) (m : String)
  | done
  | failed
deriving DecidableEq, Repr

/-- Modelled from the spec: the `Worker` of the missing `channels/worker.py`
(§3): a channel-layer reference (an identifier; the layer's state lives in
`Shared`), include/exclude patterns, an optional per-message callback (an
identifier for the injected function value), the `termed` flag, the `in_job`
flag, and the current loop position. -/
structure Worker where
  layer : Nat
  only_channels : List String
  exclude_channels : List String
  callback : Option Nat
  termed : TermMode
  in_job : Bool
  phase : Phase
deriving DecidableEq, Repr

/-- State of the shared channel layer: the queue of pending
(channel, message) pairs, plus the total number of handler invocations so far
(the tests track a shared call count across workers). -/
structure Shared where
  queue : List (String × String)
  calls : Nat
deriving DecidableEq, Repr

/-- Observable actions of the worker loop: a handler invocation with its
outcome, a requeue `send` on the retry-later path, an invocation of the
optional callback, and a silent discard of an unroutable message. -/
inductive Event
  | invoke (c : String) (m : String) (out : Outcome)
  | requeue (c : String) (m : String)
  | callbackCall (c : String) (m : String)
  | discard (c : String) (m : String)
deriving DecidableEq, Repr

/-- `receive_many` against the queue model: return the first queued message
whose channel is in `names`, removing it; `none` when no such message. -/
def receiveFirst (names : List String) :
    List (String × String) → Option ((String × String) × List (String × String))
  | [] => none
  | (c, m) :: rest =>
    if c ∈ names then some ((c, m), rest)
    else
      match receiveFirst names rest with
      | none => none
      | some (cm, rest') => some (cm, (c, m) :: rest')

/-- Modelled from the spec: one step of the worker consume loop
(§4.2, steps 1–7).  From `checkTerm`: check termination (exit if set),
otherwise receive; with no message, loop; with a message, resolve a handler
(discard if none, else set `in_job` and move to `invoking`).  From
`invoking`: run the handler; on retry-later, re-send the same message to the
same channel and skip the callback; on normal completion, invoke the optional
callback with `(channel, message)`; on any other error, fail the loop.
`in_job` is reset unconditionally after the invocation. -/
def step (env : Env) (w : Worker) (s : Shared) : Worker × Shared × List Event :=
  match w.phase with
  | .done => (w, s, [])
  | .failed => (w, s, [])
  | .checkTerm =>
    let tc := checkTermed w.termed
    let termed' := tc.2
    if tc.1 then ({ w with termed := termed', phase := .done }, s, [])
    else
      let filtered := apply_channel_filters env.channels w.only_channels w.exclude_channels
      match receiveFirst filtered s.queue with
      | none => ({ w with termed := termed' }, s, [])
      | some ((c, m), rest) =>
        if env.hasRoute c then
          ({ w with termed := termed', phase := .invoking c m, in_job := true },
           { s with queue := rest }, [])
        else
          ({ w with termed := termed' }, { s with queue := rest }, [.discard c m])
  | .invoking c m =>
    let out := env.handler s.calls
    let s' := { s with calls := s.calls + 1 }
    match out with
    | .retryLater =>
      ({ w with phase := .checkTerm, in_job := false },
       { s' with queue := s'.queue ++ [(c, m)] },
       [.invoke c m .retryLater, .requeue c m])
    | .normal =>
      ({ w with phase := .checkTerm, in_job := false }, s',
       [.invoke c m .normal] ++ (if w.callback.isSome then [.callbackCall c m] else []))
    | .fatal =>
      ({ w with phase := .failed, in_job := false }, s', [.invoke c m .fatal])

/-- Has this worker's loop exited (cleanly or by a fatal handler error)? -/
def Worker.isTerminal (w : Worker) : Bool :=
  match w.phase with
  | .done => true
  | .failed => true
  | _ => false

/-- Modelled from the spec: `Worker.run` (§4.2) — iterate the loop until it
exits (cleanly or fatally) or the step budget is exhausted, collecting the
emitted events in order. -/
def run (env : Env) : Nat → Worker → Shared → Worker × Shared × List Event
  | 0, w, s => (w, s, [])
  | n + 1, w, s =>
    if w.isTerminal then (w, s, [])
    else
      match step env w s with
      | (w', s', es) =>
        match run env n w' s' with
        | (w'', s'', es') => (w'', s'', es ++ es')

/-- Number of handler invocations recorded in a trace. -/
def countInvokes (es : List Event) : Nat :=
  (es.filter (fun e => match e with | .invoke _ _ _ => true | _ => false)).length

/-- Number of requeue `send` calls recorded in a trace. -/
def countRequeues (es : List Event) : Nat :=
  (es.filter (fun e => match e with | .requeue _ _ => true | _ => false)).length

/-- Number of callback invocations recorded in a trace. -/
def countCallbacks (es : List Event) : Nat :=
  (es.filter (fun e => match e with | .callbackCall _ _ => true | _ => false)).length

/-- The environment of `WorkerTests`: a single routed channel `"test"`, a
consumer raising `ConsumeLater` on its first call and completing normally
afterwards (`test_run_with_consume_later_error`). -/
def retryEnv : Env :=
  { channels := ["test"]
    hasRoute := fun c => c == "test"
    handler := fun n => if n == 0 then .retryLater else .normal }

/-- The environment of `WorkerTests.test_normal_run`: a single routed channel
`"test"` and a consumer that always completes normally. -/
def normalEnv : Env :=
  { channels := ["test"]
    hasRoute := fun c => c == "test"
    handler := fun _ => .normal }

/-- A freshly constructed worker with a `PatchedWorker` countdown of `n`
iterations, no filters, and a configured callback. -/
def patchedWorker (n : Nat) : Worker :=
  { layer := 0
    only_channels := []
    exclude_channels := []
    callback := some 0
    termed := .countdown n
    in_job := false
    phase := .checkTerm }

/-- Is a handler invocation in flight in this worker's loop position? -/
def jobPhase (w : Worker) : Bool :=
  match w.phase with
  | .invoking _ _ => true
  | _ => false

/-- The §3 invariant: the `in_job` flag accurately reflects whether a handler
call is currently executing on the worker's thread. -/
def workerWF (w : Worker) : Prop :=
  w.in_job = jobPhase w

instance decidableWorkerWF (w : Worker) : Decidable (workerWF w) :=
  inferInstanceAs (Decidable (w.in_job = jobPhase w))

/-- A thread handle is alive exactly while the run of the worker it executes
has not finished (joining the thread means waiting for the run to finish). -/
def threadIsAlive (w : Worker) : Bool :=
  ! w.isTerminal

/-- A freshly constructed worker of the missing `channels/worker.py`:
not terminated, not in a job, at the top of its loop. -/
def mkWorker (layer : Nat) (only exclude : List String) (callback : Option Nat) : Worker :=
  { layer := layer
    only_channels := only
    exclude_channels := exclude
    callback := callback
    termed := .flag false
    in_job := false
    phase := .checkTerm }

/-- Modelled from the spec: the `WorkerGroup` of the missing
`channels/worker.py` (§3, §4.3): a channel-layer reference, the thread count,
the owned main worker and sub-workers, the `stop_gracefully` flag, and the
optional shared callback. -/
structure WorkerGroup where
  layer : Nat
  n_threads : Nat
  stop_gracefully : Bool
  callback : Option Nat
  main : Worker
  subs : List Worker
deriving DecidableEq, Repr

/-- Modelled from the spec: `WorkerGroup` construction (§4.3) — builds
`n_threads` sub-workers plus one main worker, all sharing the same channel
layer, the same include/exclude filters, and the same optional callback. -/
def WorkerGroup.construct (layer n_threads : Nat) (only exclude : List String)
    (callback : Option Nat) (stop_gracefully : Bool) : WorkerGroup :=
  { layer := layer
    n_threads := n_threads
    stop_gracefully := stop_gracefully
    callback := callback
    main := mkWorker layer only exclude callback
    subs := List.replicate n_threads (mkWorker layer only exclude callback) }

/-- The list of Worker instances owned by a group (§3): exactly `n_threads`
sub-workers plus the one main worker. -/
def WorkerGroup.workers (g : WorkerGroup) : List Worker :=
  g.subs ++ [g.main]

/-- The group's thread handles, one per sub-worker (§3); each handle is
identified with the sub-worker whose `run` the thread executes. -/
def WorkerGroup.threads (g : WorkerGroup) : List Worker :=
  g.subs

/-- The distinguished control signal `StopWorkerGroupLoop` of the missing
`channels/worker.py`: a control exception, not an application error. -/
inductive StopSignal
  | stopWorkerGroupLoop
deriving DecidableEq, Repr

/-- Set a worker's `terminated` flag. -/
def setTermed (w : Worker) : Worker :=
  { w with termed := .flag true }

/-- Modelled from the spec: `WorkerGroup.sigterm_handler` (§4.3).  Set
`terminated` on every owned worker (main and sub-workers); when
`stop_gracefully` is false, return.  When `stop_gracefully` is true: if the
main worker is idle (`in_job` false, hence blocked in `receive_many`), raise
the distinguished stop signal to unwind the blocking call; if the main worker
is busy, do nothing further and return normally.  The returned `Option`
carries the raised signal, `none` meaning a normal return. -/
def sigterm_handler (g : WorkerGroup) : WorkerGroup × Option StopSignal :=
  let g' := { g with main := setTermed g.main, subs := g.subs.map setTermed }
  if g.stop_gracefully then
    if g.main.in_job then (g', none)
    else (g', some .stopWorkerGroupLoop)
  else (g', none)

/-- One scheduler step of the worker group: worker `i` (an index into the
group's worker list) performs one step of its loop against the shared
channel layer.  An out-of-range index changes nothing. -/
def stepGroup (env : Env) (ws : List Worker) (s : Shared) (i : Nat) :
    List Worker × Shared × List Event :=
  match ws[i]? with
  | none => (ws, s, [])
  | some w =>
    match step env w s with
    | (w', s', es) => (ws.set i w', s', es)

/-- An interleaved run of all the group's workers: the schedule lists, in
order, which worker performs the next loop step.  True parallel threads are
modelled by quantifying over every schedule (§5: the channel layer serializes
its own state, so steps interleave atomically at the receive boundary). -/
def runSched (env : Env) : List Nat → List Worker → Shared →
    List Worker × Shared × List Event
  | [], ws, s => (ws, s, [])
  | i :: rest, ws, s =>
    match stepGroup env ws s i with
    | (ws', s', es) =>
      match runSched env rest ws' s' with
      | (ws'', s'', es') => (ws'', s'', es ++ es')

/-- Contribution of one worker to the number of in-flight jobs. -/
def jobFlag (w : Worker) : Nat :=
  if jobPhase w then 1 else 0

/-- Number of in-flight handler invocations across a list of workers. -/
def pendingJobs (ws : List Worker) : Nat :=
  (ws.map jobFlag).sum

/-- An environment in which every channel is routed and the handler always
completes normally (the `WorkerGroupTests` consumer is a plain mock). -/
def routedEnv : Env :=
  { channels := ["test"]
    hasRoute := fun _ => true
    handler := fun _ => .normal }

/-- A worker group whose main worker is mid-handler on channel `"test"`
(`in_job` true), used to instantiate the busy-main graceful-stop claim. -/
def busyGroup : WorkerGroup :=
  { layer := 0
    n_threads := 1
    stop_gracefully := true
    callback := some 0
    main := { mkWorker 0 [] [] (some 0) with in_job := true, phase := .invoking "test" "m" }
    subs := [mkWorker 0 [] [] (some 0)] }

/-- The group of the idle-main graceful-stop test (`n_threads = 1`,
`stop_gracefully` true, signal handlers disabled in the model). -/
def idleGroup : WorkerGroup :=
  WorkerGroup.construct 0 1 [] [] (some 0) true

end Channels

namespace Channels

/-- Claim C1: for one originally enqueued message, a handler that signals
retry-later on its first invocation and completes normally on its second
causes exactly one requeue `send` (same message, same channel) and exactly
two handler invocations, and the optional callback is not invoked for the
retry-later outcome (the trace shows the single callback only after the
normal completion). -/
theorem claim_C1_retry_later_requeues_once (m : String) :
    (run retryEnv 6 (patchedWorker 2) { queue := [("test", m)], calls := 0 }).2.2
        = [.invoke "test" m .retryLater, .requeue "test" m,
           .invoke "test" m .normal, .callbackCall "test" m]
    ∧ countRequeues
        (run retryEnv 6 (patchedWorker 2) { queue := [("test", m)], calls := 0 }).2.2 = 1
    ∧ countInvokes
        (run retryEnv 6 (patchedWorker 2) { queue := [("test", m)], calls := 0 }).2.2 = 2
    ∧ countCallbacks
        (run retryEnv 6 (patchedWorker 2) { queue := [("test", m)], calls := 0 }).2.2 = 1 :=
  ⟨rfl, rfl, rfl, rfl⟩

/-- Claim C6: for one enqueued message on a routed channel, a handler that
completes normally on its first invocation is invoked exactly once, no
requeue `send` is performed, and the configured callback is invoked with
`(channel_name, message)` after the successful completion. -/
theorem claim_C6_normal_run_single_invocation (m : String) :
    (run normalEnv 5 (patchedWorker 2) { queue := [("test", m)], calls := 0 }).2.2
        = [.invoke "test" m .normal, .callbackCall "test" m]
    ∧ countInvokes
        (run normalEnv 5 (patchedWorker 2) { queue := [("test", m)], calls := 0 }).2.2 = 1
    ∧ countRequeues
        (run normalEnv 5 (patchedWorker 2) { queue := [("test", m)], calls := 0 }).2.2 = 0
    ∧ countCallbacks
        (run normalEnv 5 (patchedWorker 2) { queue := [("test", m)], calls := 0 }).2.2 = 1 :=
  ⟨rfl, rfl, rfl, rfl⟩

/-- Claim C7: for every list of channel names and every pair of pattern lists, the
filter result is a sublist of the input (a subset preserving relative
order); every returned name matches at least one `only` pattern when `only`
is non-empty, and no returned name matches any `exclude` pattern. -/
theorem claim_C7_filter_subset_order_matching (S only exclude : List String) :
    (apply_channel_filters S only exclude).Sublist S
    ∧ ∀ c ∈ apply_channel_filters S only exclude,
        (only ≠ [] → ∃ p ∈ only, matchPattern p c = true)
        ∧ ∀ p ∈ exclude, matchPattern p c = false := by
  constructor
  · unfold apply_channel_filters
    refine (List.filter_sublist _).trans ?_
    by_cases h : only.isEmpty
    · rw [if_pos h]
    · rw [if_neg h]
      exact List.filter_sublist S
  · intro c hc
    unfold apply_channel_filters at hc
    rw [List.mem_filter] at hc
    obtain ⟨hkept, hex⟩ := hc
    constructor
    · intro honly
      have hne : ¬ only.isEmpty := by
        simpa [List.isEmpty_iff] using honly
      rw [if_neg hne, List.mem_filter] at hkept
      obtain ⟨-, hany⟩ := hkept
      rw [List.any_eq_true] at hany
      obtain ⟨p, hp, hm⟩ := hany
      exact ⟨p, hp, hm⟩
    · intro p hp
      rw [Bool.not_eq_true'] at hex
      rw [List.any_eq_false] at hex
      simpa using hex p hp

/-- Claim C7 witness: the general filter theorem instantiated at the concrete
names and patterns of the test suite, with every hypothesis discharged. -/
theorem claim_C7_filter_subset_order_matching_witness :
    (apply_channel_filters ["yes.1", "no.1"] ["yes.*"] ["no.*"]).Sublist ["yes.1", "no.1"]
    ∧ (∃ p ∈ ["yes.*"], matchPattern p "yes.1" = true)
    ∧ matchPattern "no.*" "yes.1" = false := by
  have h := claim_C7_filter_subset_order_matching ["yes.1", "no.1"] ["yes.*"] ["no.*"]
  have hmem : "yes.1" ∈ apply_channel_filters ["yes.1", "no.1"] ["yes.*"] ["no.*"] := by
    decide
  refine ⟨h.1, (h.2 "yes.1" hmem).1 (by decide), (h.2 "yes.1" hmem).2 "no.*" (by decide)⟩

/-- Claim C8: empty `only` and `exclude` pattern lists act as the identity: the
filter returns the input list unchanged, in the same order. -/
theorem claim_C8_empty_filters_identity (S : List String) :
    apply_channel_filters S [] [] = S := by
  simp [apply_channel_filters]

/-- Claim C9: the three concrete filter examples of the spec (and of
`WorkerTests.test_channel_filters`) evaluate to exactly the stated outputs;
in particular the trailing-wildcard pattern `"yes.*"` does not match the
bare name `"yes"`. -/
theorem claim_C9_concrete_filter_examples :
    apply_channel_filters ["yes.1", "no.1"] ["yes.*", "maybe.*"] [] = ["yes.1"]
    ∧ apply_channel_filters ["yes.1", "no.1", "maybe.2", "yes"] [] ["no.*", "maybe.*"]
        = ["yes.1", "yes"]
    ∧ apply_channel_filters ["yes.1", "no.1", "maybe.2", "yes"] ["yes.*"] ["no.*"]
        = ["yes.1"]
    ∧ matchPattern "yes.*" "yes" = false := by
  refine ⟨by decide, by decide, by decide, by decide⟩

theorem sigterm_handler_fst (g : WorkerGroup) :
    (sigterm_handler g).1
      = { g with main := setTermed g.main, subs := g.subs.map setTermed } := by
  unfold sigterm_handler
  split
  · split <;> rfl
  · rfl

/-- Claim C2: for a worker group with `stop_gracefully` true whose main worker is
idle, `sigterm_handler` raises the distinguished stop signal
`StopWorkerGroupLoop` (a control value separate from any error outcome, for
callers to treat as the expected graceful-stop result), after setting the
`terminated` flag on every owned worker. -/
theorem claim_C2_graceful_stop_idle_raises (g : WorkerGroup)
    (hg : g.stop_gracefully = true) (hidle : g.main.in_job = false) :
    (sigterm_handler g).2 = some .stopWorkerGroupLoop
    ∧ ∀ w ∈ (sigterm_handler g).1.workers, w.termed = .flag true := by
  constructor
  · simp [sigterm_handler, hg, hidle]
  · intro w hw
    rw [sigterm_handler_fst] at hw
    simp only [WorkerGroup.workers, List.mem_append, List.mem_map,
      List.mem_singleton] at hw
    rcases hw with ⟨a, -, rfl⟩ | rfl <;> rfl

/-- Claim C2 witness: the idle-main graceful-stop theorem at the concrete group of
`test_graceful_stop_when_main_worker_is_idle` (one sub-worker thread,
graceful stop enabled, nothing in flight). -/
theorem claim_C2_graceful_stop_idle_raises_witness :
    (sigterm_handler idleGroup).2 = some .stopWorkerGroupLoop :=
  (claim_C2_graceful_stop_idle_raises idleGroup rfl rfl).1

/-- Claim C3: for a worker group with `stop_gracefully` true whose main worker is
busy (mid-handler), `sigterm_handler` returns normally (raises nothing), and
the in-flight handler invocation runs to completion — the handler finishes,
the optional callback is invoked — before the main worker's loop exits
cleanly with `in_job` false. -/
theorem claim_C3_graceful_stop_busy_returns (g : WorkerGroup) (env : Env)
    (s : Shared) (c m : String) (k : Nat)
    (hg : g.stop_gracefully = true)
    (hjob : g.main.in_job = true)
    (hphase : g.main.phase = .invoking c m)
    (hcb : g.main.callback = some k)
    (hout : env.handler s.calls = .normal) :
    (sigterm_handler g).2 = none
    ∧ (run env 2 (sigterm_handler g).1.main s).2.2
        = [.invoke c m .normal, .callbackCall c m]
    ∧ (run env 2 (sigterm_handler g).1.main s).1.phase = .done
    ∧ (run env 2 (sigterm_handler g).1.main s).1.in_job = false := by
  have hnone : (sigterm_handler g).2 = none := by
    simp [sigterm_handler, hg, hjob]
  have hmain : (sigterm_handler g).1.main = setTermed g.main := by
    rw [sigterm_handler_fst]
  refine ⟨hnone, ?_, ?_, ?_⟩ <;>
  · rw [hmain]
    rcases hw : g.main with ⟨lay, oc, ec, cb, tm, ij, ph⟩
    rw [hw] at hphase hcb
    simp only at hphase hcb
    subst hphase
    subst hcb
    simp [run, step, setTermed, Worker.isTerminal, hout, checkTermed,
      countInvokes, countCallbacks]

/-- Claim C3 witness: the busy-main graceful-stop theorem at a concrete group whose
main worker is mid-handler on channel `"test"`, against the always-normal
routed environment. -/
theorem claim_C3_graceful_stop_busy_returns_witness :
    (sigterm_handler busyGroup).2 = none
    ∧ (run routedEnv 2 (sigterm_handler busyGroup).1.main { queue := [], calls := 0 }).2.2
        = [.invoke "test" "m" .normal, .callbackCall "test" "m"] := by
  have h := claim_C3_graceful_stop_busy_returns busyGroup routedEnv
    { queue := [], calls := 0 } "test" "m" 0 rfl rfl rfl rfl rfl
  exact ⟨h.1, h.2.1⟩

/-- Claim C5: a worker group constructed with thread count `n_threads` holds a
worker list of exactly `n_threads` sub-workers plus one main worker and a
thread-handle list with exactly one handle per sub-worker, every owned
worker sharing the same channel layer, the same include/exclude filters,
and the same optional callback. -/
theorem claim_C5_construction_shape (layer n : Nat) (only exclude : List String)
    (cb : Option Nat) (sg : Bool) :
    (WorkerGroup.construct layer n only exclude cb sg).workers.length = n + 1
    ∧ (WorkerGroup.construct layer n only exclude cb sg).threads.length = n
    ∧ ∀ w ∈ (WorkerGroup.construct layer n only exclude cb sg).workers,
        w.layer = layer ∧ w.only_channels = only ∧ w.exclude_channels = exclude
          ∧ w.callback = cb := by
  refine ⟨?_, ?_, ?_⟩
  · simp [WorkerGroup.construct, WorkerGroup.workers]
  · simp [WorkerGroup.construct, WorkerGroup.threads]
  · intro w hw
    simp only [WorkerGroup.construct, WorkerGroup.workers, List.mem_append,
      List.mem_replicate, List.mem_singleton] at hw
    rcases hw with ⟨-, rfl⟩ | rfl <;> exact ⟨rfl, rfl, rfl, rfl⟩

/-- Claim C5 witness: the construction-shape theorem at concrete parameters, with
the membership hypothesis discharged at the freshly built sub-worker. -/
theorem claim_C5_construction_shape_witness :
    (WorkerGroup.construct 0 2 ["a"] ["b"] (some 3) true).workers.length = 3
    ∧ (WorkerGroup.construct 0 2 ["a"] ["b"] (some 3) true).threads.length = 2
    ∧ (mkWorker 0 ["a"] ["b"] (some 3)).layer = 0
    ∧ (mkWorker 0 ["a"] ["b"] (some 3)).callback = some 3 := by
  have h := claim_C5_construction_shape 0 2 ["a"] ["b"] (some 3) true
  have hm := h.2.2 (mkWorker 0 ["a"] ["b"] (some 3)) (by decide)
  exact ⟨h.1, h.2.1, hm.1, hm.2.2.2⟩

theorem step_wf (env : Env) (w : Worker) (s : Shared) (h : workerWF w) :
    workerWF (step env w s).1 := by
  rcases w with ⟨lay, oc, ec, cb, tm, ij, ph⟩
  cases ph <;> simp only [workerWF, jobPhase] at h <;> subst h
  case checkTerm =>
    simp only [step]
    split
    · simp [workerWF, jobPhase]
    · rcases hrf : receiveFirst (apply_channel_filters env.channels oc ec) s.queue
        with - | ⟨⟨c, m⟩, rest⟩
      · simp [hrf, workerWF, jobPhase]
      · simp only [hrf]
        split <;> simp [workerWF, jobPhase]
  case invoking c m =>
    simp only [step]
    rcases env.handler s.calls <;> simp [workerWF, jobPhase]
  case done => exact rfl
  case failed => exact rfl

theorem jobPhase_of_terminal (w : Worker) (h : w.isTerminal = true) :
    jobPhase w = false := by
  rcases w with ⟨lay, oc, ec, cb, tm, ij, ph⟩
  cases ph <;> simp_all [Worker.isTerminal, jobPhase]

theorem stepGroup_wf (env : Env) (ws : List Worker) (s : Shared) (i : Nat)
    (h : ∀ w ∈ ws, workerWF w) :
    ∀ w ∈ (stepGroup env ws s i).1, workerWF w := by
  unfold stepGroup
  rcases hws : ws[i]? with - | wi
  · simpa using h
  · rcases hst : step env wi s with ⟨w', s', es⟩
    simp only
    intro w hw
    rcases List.mem_or_eq_of_mem_set hw with hmem | rfl
    · exact h w hmem
    · have hwf := step_wf env wi s (h wi (List.getElem?_mem hws))
      rw [hst] at hwf
      rw [hst]
      exact hwf

theorem runSched_wf (env : Env) :
    ∀ (sched : List Nat) (ws : List Worker) (s : Shared),
      (∀ w ∈ ws, workerWF w) → ∀ w ∈ (runSched env sched ws s).1, workerWF w := by
  intro sched
  induction sched with
  | nil => intro ws s h; simpa [runSched] using h
  | cons i rest ih =>
    intro ws s h
    simp only [runSched]
    rcases hsg : stepGroup env ws s i with ⟨ws', s', es⟩
    simp only
    rcases hrs : runSched env rest ws' s' with ⟨ws'', s'', es'⟩
    simp only
    have hw' : ∀ w ∈ ws', workerWF w := by
      have := stepGroup_wf env ws s i h
      rwa [hsg] at this
    have := ih ws' s' hw'
    rwa [hrs] at this

/-- Claim C4: for a worker group whose run has completed with all spawned threads
joined — every owned worker's loop has reached a terminal state — every
owned worker's `in_job` flag is false and no owned thread remains alive;
equivalently, the group cannot be complete while any `in_job` is true or any
thread is alive.  Quantified over every interleaving schedule of the owned
workers, starting from any state satisfying the §3 `in_job` invariant. -/
theorem claim_C4_quiescence_after_join (env : Env) (g : WorkerGroup) (s : Shared)
    (sched : List Nat)
    (hwf : ∀ w ∈ g.workers, workerWF w)
    (hterm : ∀ w ∈ (runSched env sched g.workers s).1, w.isTerminal = true) :
    ∀ w ∈ (runSched env sched g.workers s).1,
      w.in_job = false ∧ threadIsAlive w = false := by
  intro w hw
  have h1 : workerWF w := runSched_wf env sched g.workers s hwf w hw
  have h2 := hterm w hw
  have h3 : jobPhase w = false := jobPhase_of_terminal w h2
  constructor
  · rw [workerWF] at h1
    rw [h1, h3]
  · simp [threadIsAlive, h2]

/-- Claim C4 witness: the quiescence theorem at the one-sub-worker group after a
graceful stop (both workers have their `terminated` flag set), under the
schedule that lets each worker observe termination and exit; the final state
of the sub-worker is spelled out. -/
theorem claim_C4_quiescence_after_join_witness :
    { layer := 0, only_channels := [], exclude_channels := [], callback := some 0,
      termed := .flag true, in_job := false, phase := .done : Worker }.in_job = false
    ∧ threadIsAlive
        { layer := 0, only_channels := [], exclude_channels := [], callback := some 0,
          termed := .flag true, in_job := false, phase := .done : Worker } = false := by
  exact claim_C4_quiescence_after_join routedEnv (sigterm_handler idleGroup).1
    { queue := [], calls := 0 } [0, 1] (by decide) (by decide) _ (by decide)

theorem countInvokes_append (a b : List Event) :
    countInvokes (a ++ b) = countInvokes a + countInvokes b := by
  simp [countInvokes, List.filter_append]

theorem countCallbacks_append (a b : List Event) :
    countCallbacks (a ++ b) = countCallbacks a + countCallbacks b := by
  simp [countCallbacks, List.filter_append]

theorem receiveFirst_length (names : List String) :
    ∀ (q : List (String × String)) (cm : String × String)
      (rest : List (String × String)),
      receiveFirst names q = some (cm, rest) → rest.length + 1 = q.length := by
  intro q
  induction q with
  | nil => intro cm rest h; simp [receiveFirst] at h
  | cons hd tl ih =>
    intro cm rest h
    rcases hd with ⟨c, m⟩
    simp only [receiveFirst] at h
    split at h
    · simp only [Option.some.injEq, Prod.mk.injEq] at h
      obtain ⟨-, rfl⟩ := h
      rfl
    · rcases hrf : receiveFirst names tl with - | ⟨cm', rest'⟩ <;> rw [hrf] at h
      · exact absurd h (by simp)
      · simp only [Option.some.injEq, Prod.mk.injEq] at h
        obtain ⟨rfl, rfl⟩ := h
        have := ih cm' rest' hrf
        simp only [List.length_cons]
        omega

theorem step_conservation (env : Env) (w : Worker) (s : Shared)
    (hroute : ∀ c, env.hasRoute c = true)
    (hnorm : ∀ n, env.handler n = .normal) :
    countInvokes (step env w s).2.2 + jobFlag (step env w s).1
        + (step env w s).2.1.queue.length
      = jobFlag w + s.queue.length := by
  rcases w with ⟨lay, oc, ec, cb, tm, ij, ph⟩
  cases ph
  case checkTerm =>
    simp only [step]
    split
    · simp [countInvokes, jobFlag, jobPhase]
    · rcases hrf : receiveFirst (apply_channel_filters env.channels oc ec) s.queue
        with - | ⟨⟨c, m⟩, rest⟩
      · simp [hrf, countInvokes, jobFlag, jobPhase]
      · have hlen := receiveFirst_length _ _ _ _ hrf
        simp only [hrf, hroute c, if_true]
        simp [countInvokes, jobFlag, jobPhase]
        omega
  case invoking c m =>
    simp only [step, hnorm]
    rcases cb with - | k <;> simp [countInvokes, jobFlag, jobPhase]
  case done => simp [step, countInvokes, jobFlag, jobPhase]
  case failed => simp [step, countInvokes, jobFlag, jobPhase]

theorem step_callback_field (env : Env) (w : Worker) (s : Shared) :
    (step env w s).1.callback = w.callback := by
  rcases w with ⟨lay, oc, ec, cb, tm, ij, ph⟩
  cases ph
  case checkTerm =>
    simp only [step]
    split
    · rfl
    · rcases hrf : receiveFirst (apply_channel_filters env.channels oc ec) s.queue
        with - | ⟨⟨c, m⟩, rest⟩
      · simp [hrf]
      · simp only [hrf]
        split <;> rfl
  case invoking c m =>
    simp only [step]
    rcases env.handler s.calls <;> rfl
  case done => rfl
  case failed => rfl

theorem step_callbacks_eq (env : Env) (w : Worker) (s : Shared)
    (hnorm : ∀ n, env.handler n = .normal)
    (hcb : w.callback.isSome = true) :
    countCallbacks (step env w s).2.2 = countInvokes (step env w s).2.2 := by
  rcases w with ⟨lay, oc, ec, cb, tm, ij, ph⟩
  cases ph
  case checkTerm =>
    simp only [step]
    split
    · rfl
    · rcases hrf : receiveFirst (apply_channel_filters env.channels oc ec) s.queue
        with - | ⟨⟨c, m⟩, rest⟩
      · simp [hrf, countCallbacks, countInvokes]
      · simp only [hrf]
        split <;> simp [countCallbacks, countInvokes]
  case invoking c m =>
    simp only [step, hnorm]
    rcases cb with - | k
    · simp at hcb
    · simp [countCallbacks, countInvokes]
  case done => rfl
  case failed => rfl

theorem pendingJobs_set (ws : List Worker) :
    ∀ (i : Nat) (w wi : Worker), ws[i]? = some wi →
      pendingJobs (ws.set i w) + jobFlag wi = pendingJobs ws + jobFlag w := by
  induction ws with
  | nil => intro i w wi h; simp at h
  | cons hd tl ih =>
    intro i w wi h
    cases i with
    | zero =>
      simp only [List.getElem?_cons_zero, Option.some.injEq] at h
      subst h
      simp [pendingJobs, List.set]
      omega
    | succ n =>
      simp only [List.getElem?_cons_succ] at h
      have := ih n w wi h
      simp only [List.set, pendingJobs, List.map_cons, List.sum_cons] at this ⊢
      omega

theorem stepGroup_conservation (env : Env) (ws : List Worker) (s : Shared) (i : Nat)
    (hroute : ∀ c, env.hasRoute c = true)
    (hnorm : ∀ n, env.handler n = .normal) :
    countInvokes (stepGroup env ws s i).2.2 + pendingJobs (stepGroup env ws s i).1
        + (stepGroup env ws s i).2.1.queue.length
      = pendingJobs ws + s.queue.length := by
  unfold stepGroup
  rcases hws : ws[i]? with - | wi
  · simp [countInvokes]
  · rcases hst : step env wi s with ⟨w', s', es⟩
    simp only
    rw [hst]
    simp only
    have hc := step_conservation env wi s hroute hnorm
    rw [hst] at hc
    have hp := pendingJobs_set ws i w' wi hws
    simp only at hc
    omega

theorem stepGroup_callback_mem (env : Env) (ws : List Worker) (s : Shared) (i : Nat)
    (h : ∀ w ∈ ws, w.callback.isSome = true) :
    ∀ w ∈ (stepGroup env ws s i).1, w.callback.isSome = true := by
  unfold stepGroup
  rcases hws : ws[i]? with - | wi
  · simpa using h
  · rcases hst : step env wi s with ⟨w', s', es⟩
    simp only
    intro w hw
    rcases List.mem_or_eq_of_mem_set hw with hmem | rfl
    · exact h w hmem
    · have hcf := step_callback_field env wi s
      rw [hst] at hcf
      simp only at hcf
      rw [hst]
      simp only [hcf]
      exact h wi (List.getElem?_mem hws)

theorem stepGroup_callbacks_eq (env : Env) (ws : List Worker) (s : Shared) (i : Nat)
    (hnorm : ∀ n, env.handler n = .normal)
    (h : ∀ w ∈ ws, w.callback.isSome = true) :
    countCallbacks (stepGroup env ws s i).2.2 = countInvokes (stepGroup env ws s i).2.2 := by
  unfold stepGroup
  rcases hws : ws[i]? with - | wi
  · rfl
  · rcases hst : step env wi s with ⟨w', s', es⟩
    simp only
    rw [hst]
    have := step_callbacks_eq env wi s hnorm (h wi (List.getElem?_mem hws))
    rwa [hst] at this

theorem runSched_conservation (env : Env)
    (hroute : ∀ c, env.hasRoute c = true)
    (hnorm : ∀ n, env.handler n = .normal) :
    ∀ (sched : List Nat) (ws : List Worker) (s : Shared),
      (∀ w ∈ ws, w.callback.isSome = true) →
      (countInvokes (runSched env sched ws s).2.2 + pendingJobs (runSched env sched ws s).1
          + (runSched env sched ws s).2.1.queue.length
        = pendingJobs ws + s.queue.length)
      ∧ countCallbacks (runSched env sched ws s).2.2
          = countInvokes (runSched env sched ws s).2.2 := by
  intro sched
  induction sched with
  | nil => intro ws s h; simp [runSched, countInvokes, countCallbacks]
  | cons i rest ih =>
    intro ws s h
    simp only [runSched]
    rcases hsg : stepGroup env ws s i with ⟨ws', s', es⟩
    simp only
    rcases hrs : runSched env rest ws' s' with ⟨ws'', s'', es'⟩
    simp only
    have h1 := stepGroup_conservation env ws s i hroute hnorm
    rw [hsg] at h1
    simp only at h1
    have hcb1 := stepGroup_callbacks_eq env ws s i hnorm h
    rw [hsg] at hcb1
    simp only at hcb1
    have hmem : ∀ w ∈ ws', w.callback.isSome = true := by
      have := stepGroup_callback_mem env ws s i h
      rwa [hsg] at this
    have h2 := ih ws' s' hmem
    rw [hrs] at h2
    simp only at h2
    rw [countInvokes_append, countCallbacks_append]
    constructor
    · omega
    · omega

/-- Claim C10: when a worker group's workers, all sharing the optional callback,
process a single enqueued message under any interleaving of their threads
(the handler completing normally and every received channel being routed),
and the run reaches quiescence with the queue drained, then exactly one
handler invocation happened across all workers — i.e. exactly one worker
executed the handler — and the shared callback fired exactly once. -/
theorem claim_C10_single_message_one_invocation (env : Env) (g : WorkerGroup)
    (s : Shared) (sched : List Nat) (c m : String)
    (_hthreads : 2 ≤ g.n_threads)
    (hroute : ∀ ch, env.hasRoute ch = true)
    (hnorm : ∀ n, env.handler n = .normal)
    (hcb : ∀ w ∈ g.workers, w.callback.isSome = true)
    (hidle : pendingJobs g.workers = 0)
    (hq : s.queue = [(c, m)])
    (hquiet : pendingJobs (runSched env sched g.workers s).1 = 0)
    (hdrained : (runSched env sched g.workers s).2.1.queue = []) :
    countInvokes (runSched env sched g.workers s).2.2 = 1
    ∧ countCallbacks (runSched env sched g.workers s).2.2 = 1 := by
  obtain ⟨h1, h2⟩ := runSched_conservation env hroute hnorm sched g.workers s hcb
  rw [hquiet, hdrained, hidle, hq] at h1
  simp only [List.length_nil, List.length_cons] at h1
  constructor
  · omega
  · rw [h2]; omega

/-- Claim C10 witness: the single-message theorem at a concrete three-sub-worker
group sharing one callback, under the schedule in which the first sub-worker
receives the message and completes it. -/
theorem claim_C10_single_message_one_invocation_witness :
    countInvokes (runSched routedEnv [0, 0]
        (WorkerGroup.construct 0 3 [] [] (some 0) true).workers
        { queue := [("test", "m")], calls := 0 }).2.2 = 1
    ∧ countCallbacks (runSched routedEnv [0, 0]
        (WorkerGroup.construct 0 3 [] [] (some 0) true).workers
        { queue := [("test", "m")], calls := 0 }).2.2 = 1 := by
  exact claim_C10_single_message_one_invocation routedEnv
    (WorkerGroup.construct 0 3 [] [] (some 0) true)
    { queue := [("test", "m")], calls := 0 } [0, 0] "test" "m"
    (by decide) (fun ch => rfl) (fun n => rfl) (by decide) (by decide) rfl
    (by decide) (by decide)

end Channels
